import Mathlib

/-!
Verification of the recurrence-aware event visibility and occurrence-expansion
engine of the Family-Calendar repository.

The embedding covers, faithfully to the JavaScript source:
  - the Occurrence Model of `script-server.js` (`isRecurringEvent`,
    `occursOnDate`, `parseTimeToMinutes`, `getNextOccurrenceDate`,
    `calculateListHorizon`, `createOccurrenceInstance`, `getEventsForDay`);
  - the store layer of `database.js` (`getEventsByFamily`, `createEvent`,
    `updateEvent`);
  - the mutation routes of `server.js` (`PUT /api/events/:id`,
    `DELETE /api/events/:id`).

Modelling conventions, used throughout:
  - A calendar date is a year-month-day triple.  All `Date` values handled by
    the calendar code are midnight-normalized (`setHours(0,0,0,0)`), and for
    valid calendar components chronological comparison of such dates coincides
    with lexicographic comparison of the triples.
  - Stored date strings are well-formed canonical `YYYY-MM-DD` strings (the
    format produced by `formatDateForInput` and by the `TO_CHAR(..)` SQL
    projections), for which string equality coincides with equality of the
    parsed triples and `toDate` always succeeds; a `none` date field models a
    missing/empty date (`!event.date`).
  - JavaScript numbers appearing here are integers (years, months, days,
    minute counts), modelled by `Int`/`Nat`.
-/

namespace FamilyCal

/-- Calendar date as a year-month-day triple (model of a midnight-normalized
JS `Date`, and of a well-formed `YYYY-MM-DD` date string). -/
structure YMD where
  year : Int
  month : Int
  day : Int
deriving DecidableEq, Repr

/-- Chronological strict comparison of two dates: model of `<` on two
midnight-normalized JS `Date` values, which for valid calendar components is
lexicographic comparison of the triples. -/
def ymdLt (a b : YMD) : Bool :=
  decide (a.year < b.year ∨ (a.year = b.year ∧
    (a.month < b.month ∨ (a.month = b.month ∧ a.day < b.day))))

/-- Chronological non-strict comparison: `a <= b` as the JS code writes it,
namely the negation of `b < a`. -/
def ymdLe (a b : YMD) : Bool :=
  !ymdLt b a

theorem ymdLt_iff {a b : YMD} :
    ymdLt a b = true ↔
      (a.year < b.year ∨ (a.year = b.year ∧
        (a.month < b.month ∨ (a.month = b.month ∧ a.day < b.day)))) := by
  simp [ymdLt]

theorem ymdLe_iff {a b : YMD} : ymdLe a b = true ↔ ymdLt b a = false := by
  simp [ymdLe]

theorem ymdLt_asymm {a b : YMD} (h : ymdLt a b = true) : ymdLt b a = false := by
  rw [ymdLt_iff] at h
  rcases a with ⟨ay, am, ad⟩
  rcases b with ⟨by1, bm, bd⟩
  simp only [ymdLt, decide_eq_false_iff_not]
  simp only at h
  omega

theorem ymdLe_of_lt {a b : YMD} (h : ymdLt a b = true) : ymdLe a b = true := by
  rw [ymdLe_iff]
  exact ymdLt_asymm h

theorem ymdLe_refl (a : YMD) : ymdLe a a = true := by
  rw [ymdLe_iff]
  rcases a with ⟨ay, am, ad⟩
  simp only [ymdLt, decide_eq_false_iff_not]
  omega

theorem ymdLe_trans {a b c : YMD} (h1 : ymdLe a b = true)
    (h2 : ymdLe b c = true) : ymdLe a c = true := by
  rw [ymdLe_iff] at h1 h2 ⊢
  rcases a with ⟨ay, am, ad⟩
  rcases b with ⟨by1, bm, bd⟩
  rcases c with ⟨cy, cm, cd⟩
  simp only [ymdLt, decide_eq_false_iff_not] at h1 h2 ⊢
  omega

theorem ymdLe_total (a b : YMD) : ymdLe a b = true ∨ ymdLe b a = true := by
  rw [ymdLe_iff, ymdLe_iff]
  rcases a with ⟨ay, am, ad⟩
  rcases b with ⟨by1, bm, bd⟩
  simp only [ymdLt, decide_eq_false_iff_not]
  omega

theorem ymdLe_of_not_lt {a b : YMD} (h : ymdLt a b = false) :
    ymdLe b a = true := by
  rw [ymdLe_iff]
  exact h

theorem ymdLt_of_le_of_ne {a b : YMD} (h : ymdLe a b = true) (hne : a ≠ b) :
    ymdLt a b = true := by
  rw [ymdLe_iff] at h
  rcases a with ⟨ay, am, ad⟩
  rcases b with ⟨by1, bm, bd⟩
  simp only [ymdLt, decide_eq_false_iff_not, decide_eq_true_iff] at h ⊢
  simp only [ne_eq, YMD.mk.injEq] at hne
  omega

/-- Gregorian leap-year rule, as realized by JS `Date` normalization. -/
def isLeapYear (y : Int) : Bool :=
  y % 4 == 0 && (y % 100 != 0 || y % 400 == 0)

/-- Model of `candidate.setFullYear(y)` on a midnight-normalized date holding
a valid month/day: the month and day are kept, except that Feb 29 overflows
to Mar 1 when the target year is not a leap year (JS date normalization). -/
def setFullYear (c : YMD) (y : Int) : YMD :=
  if c.month == 2 && c.day == 29 && !isLeapYear y then ⟨y, 3, 1⟩
  else ⟨y, c.month, c.day⟩

/-- Length of a Gregorian month, used to model JS `setDate` day rollover. -/
def daysInMonth (y m : Int) : Int :=
  if m = 2 then (if isLeapYear y then 29 else 28)
  else if m = 4 ∨ m = 6 ∨ m = 9 ∨ m = 11 then 30
  else 31

/-- Successor day in the Gregorian calendar. -/
def nextDay (d : YMD) : YMD :=
  if d.day < daysInMonth d.year d.month then ⟨d.year, d.month, d.day + 1⟩
  else if d.month < 12 then ⟨d.year, d.month + 1, 1⟩
  else ⟨d.year + 1, 1, 1⟩

/-- Model of `date.setDate(date.getDate() + n)` for `n ≥ 0`: advancing a date
by `n` days, one JS-normalized day at a time. -/
def addDays (d : YMD) : Nat → YMD
  | 0 => d
  | n + 1 => nextDay (addDays d n)

theorem ymdLt_nextDay (d : YMD) : ymdLt d (nextDay d) = true := by
  rcases d with ⟨y, m, dd⟩
  rw [ymdLt_iff]
  unfold nextDay
  split
  · dsimp only
    omega
  · split
    · dsimp only
      omega
    · dsimp only
      omega

theorem ymdLt_addDays (d : YMD) {n : Nat} (h : 0 < n) :
    ymdLt d (addDays d n) = true := by
  induction n with
  | zero => omega
  | succ k ih =>
    rcases Nat.eq_zero_or_pos k with hk | hk
    · subst hk
      simpa [addDays] using ymdLt_nextDay d
    · have h1 : ymdLe d (addDays d k) = true := ymdLe_of_lt (ih hk)
      have h2 : ymdLt (addDays d k) (addDays d (k + 1)) = true := by
        simpa [addDays] using ymdLt_nextDay (addDays d k)
      have h3 : ymdLe d (addDays d (k + 1)) = true :=
        ymdLe_trans h1 (ymdLe_of_lt h2)
      rcases eq_or_ne d (addDays d (k + 1)) with he | he
      · rw [← he] at h2
        rw [ymdLe_iff] at h1
        rw [h1] at h2
        exact absurd h2 (by simp)
      · exact ymdLt_of_le_of_ne h3 he

/-- An event record, covering both the rows selected in `database.js` (the
aliased columns of its SELECTs) and the normalized client-side events of
`script-server.js` (`normalizeEvent` output).  The `date` field holds the
parsed anchor date; `none` models a missing/empty date string (`!event.date`
in JS).  `recurrenceType`, `recurrenceInterval` and `recurrenceUntil` are
nullable (`none` = SQL NULL / JS null). -/
structure Event where
  id : String
  title : String
  date : Option YMD
  time : String
  description : String
  color : String
  emoji : String
  ownerId : String
  familyId : String
  visibility : String
  recurrenceType : Option String
  recurrenceInterval : Option Int
  recurrenceUntil : Option YMD
deriving DecidableEq, Repr

/-- Source `script-server.js` `isRecurringEvent`:
`!!(event && event.recurrenceType === 'yearly')`. -/
def isRecurringEvent (e : Event) : Bool :=
  decide (e.recurrenceType = some "yearly")

/-- The `recurrenceUntil` cutoff inside `occursOnDate`: the guard
`event.recurrenceUntil` is set (for a well-formed bound `toDate` succeeds)
and `compareDate > untilDate`. -/
def untilCutoff (u : Option YMD) (d : YMD) : Bool :=
  match u with
  | some ud => ymdLt ud d
  | none => false

/-- Source `script-server.js` `occursOnDate`.  Branches, in source order:
missing date gives false; exact string match of `event.date` with the
formatted target gives true (for well-formed canonical date strings this is
equality of the triples); a non-recurring event then gives false; a target
strictly before the anchor gives false; a target strictly after a set
`recurrenceUntil` gives false; finally the `switch` on `recurrenceType`
compares month and day for the `yearly` case and gives false otherwise. -/
def occursOnDate (e : Event) (targetDate : YMD) : Bool :=
  match e.date with
  | none => false
  | some base =>
    if base = targetDate then true
    else if !isRecurringEvent e then false
    else if ymdLt targetDate base then false
    else if untilCutoff e.recurrenceUntil targetDate then false
    else
      match e.recurrenceType with
      | some t =>
        if t = "yearly" then
          decide (base.month = targetDate.month ∧ base.day = targetDate.day)
        else false
      | none => false

/-- An Occurrence Instance: the source builds
`{ ...event, occurrenceDate, isRecurringInstance }` by spreading the event
fields; the spread copy is kept here as a nested `event` field. -/
structure Occurrence where
  event : Event
  occurrenceDate : YMD
  isRecurringInstance : Bool
deriving DecidableEq, Repr

/-- Source `script-server.js` `createOccurrenceInstance`: the flag is
`isRecurringEvent(event) && occurrenceDate !== event.date`, where
`occurrenceDate` is the formatted target date (string inequality, which for
well-formed canonical date strings is inequality of the triples). -/
def createOccurrenceInstance (e : Event) (targetDate : YMD) : Occurrence :=
  ⟨e, targetDate, isRecurringEvent e && decide (e.date ≠ some targetDate)⟩

/-- JS `Number.MAX_SAFE_INTEGER`. -/
def MAX_SAFE_INTEGER : Nat := 2 ^ 53 - 1

/-- Splitting a character list at `:` separators: model of
`timeString.split(':')` on the string's characters. -/
def splitOnColon : List Char → List (List Char)
  | [] => [[]]
  | c :: cs =>
    match splitOnColon cs with
    | [] => [[c]]
    | p :: ps => if c = ':' then [] :: p :: ps else (c :: p) :: ps

/-- Conversion of one split part to a number: model of JS `Number` restricted
to the `HH:MM` grammar of the data model, where each part is a nonempty digit
string; other parts (which the data model excludes) are treated as NaN
(`none`). -/
def partToNat : List Char → Option Nat
  | [] => none
  | cs =>
    if cs.all (fun c => '0' ≤ c ∧ c ≤ '9') then
      some (cs.foldl (fun n c => n * 10 + (c.toNat - 48)) 0)
    else none

/-- Source `script-server.js` `parseTimeToMinutes`: an empty (falsy) time
string yields `Number.MAX_SAFE_INTEGER`; otherwise the string is split on
`:`; fewer than two parts, or any NaN part, also yields
`Number.MAX_SAFE_INTEGER`; otherwise the result is `hours * 60 + minutes`
from the first two parts. -/
def parseTimeToMinutes (timeString : String) : Nat :=
  if timeString = "" then MAX_SAFE_INTEGER
  else
    let parts := (splitOnColon timeString.toList).map partToNat
    if parts.length < 2 || parts.any Option.isNone then MAX_SAFE_INTEGER
    else
      match parts with
      | some hours :: some minutes :: _ => hours * 60 + minutes
      | _ => MAX_SAFE_INTEGER

/-- One step of the `getNextOccurrenceDate` loop body for the `yearly` case:
`candidate.setFullYear(candidate.getFullYear() + interval)`. -/
def stepOnce (interval : Int) (c : YMD) : YMD :=
  setFullYear c (c.year + interval)

/-- The stepping loop of `getNextOccurrenceDate`:
`while (candidate < startDate && safety < 500)` advance the candidate by
`interval` years (the loop body's `switch` is always in its `yearly` case
here, since the loop is only reached for recurring events).  `fuel` is the
number of loop iterations still allowed by the safety counter; exhausting it
models exiting with `safety >= 500`, which the source maps to `null`. -/
def stepLoop (interval : Int) (startDate : YMD) : Nat → YMD → Option YMD
  | 0, _ => none
  | fuel + 1, c =>
    if ymdLt c startDate then stepLoop interval startDate fuel (stepOnce interval c)
    else some c

/-- Source `script-server.js` `getNextOccurrenceDate`.  Branches, in source
order: missing/unparsable date gives `null`; `baseDate >= startDate` returns
the anchor; a non-recurring event gives `null`; otherwise the interval is
`Number(event.recurrenceInterval)` when set and positive, else 1; the loop
steps the candidate until it reaches `startDate` or the 500-iteration safety
bound fires (then `null`); a set `recurrenceUntil` strictly below the
candidate gives `null`; finally `candidate >= startDate ? candidate : null`. -/
def getNextOccurrenceDate (e : Event) (fromDate : YMD) : Option YMD :=
  match e.date with
  | none => none
  | some base =>
    if ymdLe fromDate base then some base
    else if !isRecurringEvent e then none
    else
      let interval : Int :=
        match e.recurrenceInterval with
        | some n => if 0 < n then n else 1
        | none => 1
      match stepLoop interval fromDate 500 base with
      | none => none
      | some candidate =>
        if untilCutoff e.recurrenceUntil candidate then none
        else if ymdLe fromDate candidate then some candidate
        else none

/-- The reduction inside `calculateListHorizon`:
`reduce((maxDate, date) => date > maxDate ? date : maxDate, furthest)`. -/
def ymdFoldMax (l : List YMD) (init : YMD) : YMD :=
  l.foldl (fun maxDate d => if ymdLt maxDate d then d else maxDate) init

/-- Source `script-server.js` `calculateListHorizon` (with `this.events`
passed explicitly): the furthest of the per-event next occurrences
(`map(getNextOccurrenceDate).filter(date => date)`, reduced with
`date > maxDate ? date : maxDate` starting from `startDate`), raised to the
default horizon `startDate + 60` days when that is later. -/
def calculateListHorizon (events : List Event) (startDate : YMD) : YMD :=
  let nextOccurrences := events.filterMap (fun e => getNextOccurrenceDate e startDate)
  let furthest :=
    if nextOccurrences.length > 0 then ymdFoldMax nextOccurrences startDate
    else startDate
  let defaultHorizon := addDays startDate 60
  if ymdLt furthest defaultHorizon then defaultHorizon else furthest

/-- The accumulation phase of `getEventsForDay` (the `forEach` over
`this.events`): events with a missing date are skipped; an event whose date
string equals the formatted day is pushed; otherwise the event is pushed
when `occursOnDate` holds. -/
def dayMaterialize (events : List Event) (date : YMD) : List Occurrence :=
  events.filterMap (fun e =>
    match e.date with
    | none => none
    | some d0 =>
      if d0 = date then some (createOccurrenceInstance e date)
      else if occursOnDate e date then some (createOccurrenceInstance e date)
      else none)

/-- Sort key of the `getEventsForDay` comparator
`(a, b) => parseTimeToMinutes(a.time) - parseTimeToMinutes(b.time)`. -/
def occKey (o : Occurrence) : Nat :=
  parseTimeToMinutes o.event.time

/-- The comparator as a boolean order: `a` may stay before `b` exactly when
its key is not larger. -/
def occLe (a b : Occurrence) : Bool :=
  decide (occKey a ≤ occKey b)

/-- Source `script-server.js` `getEventsForDay`: materialize the day's
occurrence instances, then sort with the time comparator.
`Array.prototype.sort` with this comparator is a stable sort by `occKey`
(ECMAScript requires sort stability), modelled by the stable
`List.mergeSort`. -/
def getEventsForDay (events : List Event) (date : YMD) : List Occurrence :=
  (dayMaterialize events date).mergeSort occLe

/-- The WHERE clause of `getEventsByFamily` in `database.js`:
`(family_id = $1 AND visibility = 'shared') OR (owner_id = $3 AND visibility
= 'private')`.  This SQL predicate is the system's visibility filter; note
that it takes the viewer's family and user ids but no role. -/
def visibleToViewer (familyId userId : String) (e : Event) : Bool :=
  decide ((e.familyId = familyId ∧ e.visibility = "shared") ∨
    (e.ownerId = userId ∧ e.visibility = "private"))

/-- Source `database.js` `getEventsByFamily`: the rows of the events table
selected by the WHERE clause above.  The SQL `ORDER BY date ASC` only
permutes the selected rows and no claim concerns the store's row order, so
the selection is modelled as a filter in table order. -/
def getEventsByFamily (table : List Event) (familyId userId : String) : List Event :=
  table.filter (visibleToViewer familyId userId)

/-- JS `x || null` on an optional string: `null`/absent and the empty string
are falsy and give `null`; any other string is kept. -/
def strOrNull (v : Option String) : Option String :=
  match v with
  | some s => if s = "" then none else some s
  | none => none

/-- JS `x || dflt` on an optional string: the default replaces `null`/absent
and the empty string. -/
def strOrDefault (v : Option String) (dflt : String) : String :=
  match v with
  | some s => if s = "" then dflt else s
  | none => dflt

/-- The `eventData` argument of `database.js` `createEvent`, as assembled by
the POST handler: absent and JSON-`null` fields are both modelled as `none`
(both are falsy under the `||` coercions the function applies).  For
`recurrenceInterval` the value 0 is also falsy, which `createEvent` below
accounts for explicitly. -/
structure EventData where
  title : String
  date : YMD
  time : Option String
  description : Option String
  color : Option String
  emoji : Option String
  ownerId : String
  familyId : String
  visibility : Option String
  recurrenceType : Option String
  recurrenceInterval : Option Int
  recurrenceUntil : Option YMD
deriving DecidableEq, Repr

/-- Source `database.js` `createEvent`: computes
`recurrenceType = eventData.recurrenceType || null`,
`recurrenceInterval = recurrenceType ? (eventData.recurrenceInterval || 1) : null`,
`recurrenceUntil = eventData.recurrenceUntil || null`, and inserts the row
with the displayed `||` defaults for the remaining optional columns.  The
random `id` is taken as a parameter; the inserted row is returned (as
`getEventById` re-reads it). -/
def createEvent (id : String) (d : EventData) : Event :=
  let recurrenceType := strOrNull d.recurrenceType
  let recurrenceInterval : Option Int :=
    match recurrenceType with
    | some _ =>
      match d.recurrenceInterval with
      | some n => if n = 0 then some 1 else some n
      | none => some 1
    | none => none
  let recurrenceUntil := d.recurrenceUntil
  { id := id
    title := d.title
    date := some d.date
    time := strOrDefault d.time ""
    description := strOrDefault d.description ""
    color := strOrDefault d.color "blue"
    emoji := strOrDefault d.emoji ""
    ownerId := d.ownerId
    familyId := d.familyId
    visibility := strOrDefault d.visibility "shared"
    recurrenceType := recurrenceType
    recurrenceInterval := recurrenceInterval
    recurrenceUntil := recurrenceUntil }

/-- The `updates` argument of `database.js` `updateEvent`: an outer `none`
models a field absent from the request body (`undefined`, skipping that
field's UPDATE).  For the three recurrence fields the inner option records
the given nullable value, to which the source applies a `|| null` falsy
coercion; for `recurrenceType` the empty string is also falsy, recorded by
`strOrNull`.  `ownerId` and `familyId` can appear in a request body (the PUT
route strips them for child actors) but `updateEvent` itself has no branch
for them and never writes those columns. -/
structure EventUpdates where
  title : Option String
  date : Option YMD
  time : Option String
  description : Option String
  color : Option String
  emoji : Option String
  visibility : Option String
  recurrenceType : Option (Option String)
  recurrenceInterval : Option (Option Int)
  recurrenceUntil : Option (Option YMD)
  ownerId : Option String
  familyId : Option String
deriving DecidableEq, Repr

/-- `updateEvent` step: `if (updates.title !== undefined) UPDATE ... SET title`. -/
def upTitle (u : EventUpdates) (e : Event) : Event :=
  match u.title with
  | some v => { e with title := v }
  | none => e

/-- `updateEvent` step for `date`. -/
def upDate (u : EventUpdates) (e : Event) : Event :=
  match u.date with
  | some v => { e with date := some v }
  | none => e

/-- `updateEvent` step for `time`. -/
def upTime (u : EventUpdates) (e : Event) : Event :=
  match u.time with
  | some v => { e with time := v }
  | none => e

/-- `updateEvent` step for `description`. -/
def upDescription (u : EventUpdates) (e : Event) : Event :=
  match u.description with
  | some v => { e with description := v }
  | none => e

/-- `updateEvent` step for `color`. -/
def upColor (u : EventUpdates) (e : Event) : Event :=
  match u.color with
  | some v => { e with color := v }
  | none => e

/-- `updateEvent` step for `emoji`. -/
def upEmoji (u : EventUpdates) (e : Event) : Event :=
  match u.emoji with
  | some v => { e with emoji := v }
  | none => e

/-- `updateEvent` step for `visibility`. -/
def upVisibility (u : EventUpdates) (e : Event) : Event :=
  match u.visibility with
  | some v => { e with visibility := v }
  | none => e

/-- `updateEvent` step for `recurrenceType`: when the field is present, the
stored type becomes `updates.recurrenceType || null`, and when that is null
the same branch also nulls `recurrence_interval` and `recurrence_until`. -/
def upRecurrenceType (u : EventUpdates) (e : Event) : Event :=
  match u.recurrenceType with
  | some v =>
    match strOrNull v with
    | none =>
      { e with recurrenceType := none, recurrenceInterval := none, recurrenceUntil := none }
    | some t => { e with recurrenceType := some t }
  | none => e

/-- `updateEvent` step for `recurrenceInterval`: when present, the stored
interval becomes `updates.recurrenceInterval || null` (0 is falsy). -/
def upRecurrenceInterval (u : EventUpdates) (e : Event) : Event :=
  match u.recurrenceInterval with
  | some v =>
    { e with recurrenceInterval := match v with
        | some n => if n = 0 then none else some n
        | none => none }
  | none => e

/-- `updateEvent` step for `recurrenceUntil`: when present, the stored bound
becomes `updates.recurrenceUntil || null` (null and the empty date string
are both modelled by `none`, so the coercion is the identity here). -/
def upRecurrenceUntil (u : EventUpdates) (e : Event) : Event :=
  match u.recurrenceUntil with
  | some v => { e with recurrenceUntil := v }
  | none => e

/-- Source `database.js` `updateEvent`: the provided fields are applied to
the stored row one at a time, in source order; the updated row is returned
(as `getEventById` re-reads it). -/
def updateEvent (e : Event) (u : EventUpdates) : Event :=
  upRecurrenceUntil u (upRecurrenceInterval u (upRecurrenceType u
    (upVisibility u (upEmoji u (upColor u (upDescription u
      (upTime u (upDate u (upTitle u e)))))))))

/-- The actor data the mutation routes read from the authenticated session:
`req.session.userId` and `req.session.userRole`. -/
structure Session where
  userId : String
  userRole : String
deriving DecidableEq, Repr

/-- Outcome of a mutation route: HTTP 404, HTTP 403, or 200 with the event
the route responds with. -/
inductive RouteOutcome where
  | notFound
  | forbidden
  | ok (e : Event)
deriving DecidableEq, Repr

/-- Source `server.js` `PUT /api/events/:id`: 404 when the event id does not
resolve; 403 unless `event.owner_id === req.session.userId` or
`req.session.userRole === 'admin'`; for a `child` actor the `visibility`,
`ownerId` and `familyId` keys are deleted from the update body; then
`db.updateEvent` is applied and the updated row returned. -/
def putEventRoute (stored : Option Event) (s : Session) (body : EventUpdates) :
    RouteOutcome :=
  match stored with
  | none => .notFound
  | some event =>
    if event.ownerId ≠ s.userId ∧ s.userRole ≠ "admin" then .forbidden
    else
      let updates :=
        if s.userRole = "child" then
          { body with visibility := none, ownerId := none, familyId := none }
        else body
      .ok (updateEvent event updates)

/-- Source `server.js` `DELETE /api/events/:id`: 404 when the event id does
not resolve; 403 unless the actor owns the event or is an admin; otherwise
`db.deleteEvent` removes the row and the route responds with the deleted
event. -/
def deleteEventRoute (stored : Option Event) (s : Session) : RouteOutcome :=
  match stored with
  | none => .notFound
  | some event =>
    if event.ownerId ≠ s.userId ∧ s.userRole ≠ "admin" then .forbidden
    else .ok event

/-- Reference definition of `occursOn` transcribed from the specification
text of claim C1: true iff the target equals the anchor exactly, or the
event is `yearly`-recurring, the target is on or after the anchor, the
target is on or before `recurrenceUntil` whenever that bound is set, and the
target's month and day literally equal the anchor's. -/
def occursOnSpecRef (e : Event) (d : YMD) : Bool :=
  match e.date with
  | none => false
  | some anchor =>
    decide (d = anchor) ||
      (decide (e.recurrenceType = some "yearly") &&
        ymdLe anchor d &&
        (match e.recurrenceUntil with
         | some u => ymdLe d u
         | none => true) &&
        decide (d.month = anchor.month ∧ d.day = anchor.day))

/-- Iterated candidate stepping: `candidateAfter interval anchor k` is the
anchor advanced `k` times by `setFullYear(year + interval)`.  Used to state
what "the first candidate obtained by stepping the anchor forward" means in
claim C4. -/
def candidateAfter (interval : Int) (base : YMD) : Nat → YMD
  | 0 => base
  | k + 1 => stepOnce interval (candidateAfter interval base k)

/-- Reference definition of `nextOccurrenceOnOrAfter` transcribed from the
amended claim C4: the anchor itself when on or after `fromDate`; `null` for
a non-recurring event; otherwise the first candidate (stepping by the
interval, with a non-positive or missing `recurrenceInterval` treated as the
default 1) that is on or after `fromDate`, provided it is reached within the
500-iteration safety cap (`null` otherwise), and `null` when a set
`recurrenceUntil` is exceeded by that candidate. -/
def nextOccSpecCapped (e : Event) (fromDate : YMD) : Option YMD :=
  match e.date with
  | none => none
  | some anchor =>
    if ymdLe fromDate anchor then some anchor
    else if e.recurrenceType ≠ some "yearly" then none
    else
      let interval : Int :=
        match e.recurrenceInterval with
        | some n => if 0 < n then n else 1
        | none => 1
      match (List.range 500).find?
          (fun k => ymdLe fromDate (candidateAfter interval anchor k)) with
      | none => none
      | some k =>
        let candidate := candidateAfter interval anchor k
        match e.recurrenceUntil with
        | some u => if ymdLt u candidate then none else some candidate
        | none => some candidate

theorem occursOnDate_none_date {e : Event} (h : e.date = none) (d : YMD) :
    occursOnDate e d = false := by
  simp [occursOnDate, h]

/-- C1: `occursOnDate` agrees with the specification's reference definition
of `occursOn` on every event and target date (in the model of well-formed
date strings): true iff the target equals the anchor exactly, or the event
is yearly-recurring, the target is on or after the anchor, on or before a
set `recurrenceUntil`, and matches the anchor's month and day; and an event
whose `recurrenceType` is null or unrecognized occurs on no date other than
its own anchor date. -/
theorem claim1_occursOnDate_matches_spec :
    (∀ e d, occursOnDate e d = occursOnSpecRef e d) ∧
    (∀ e d, e.recurrenceType ≠ some "yearly" → e.date ≠ some d →
      occursOnDate e d = false) := by
  have main : ∀ e d, occursOnDate e d = occursOnSpecRef e d := by
    intro e d
    rcases e with ⟨i, ti, date, tm, de, co, em, ow, fa, vi, rt, ri, ru⟩
    cases date with
    | none => rfl
    | some anchor =>
      by_cases hr : rt = some "yearly"
      · subst hr
        by_cases hexact : anchor = d
        · subst hexact
          simp [occursOnDate, occursOnSpecRef]
        · have hda : ¬ d = anchor := fun h => hexact h.symm
          by_cases hlt : ymdLt d anchor = true
          · have hle : ymdLe anchor d = false := by
              simp [ymdLe, hlt]
            simp [occursOnDate, occursOnSpecRef, isRecurringEvent, hexact,
              hda, hlt, hle]
          · have hlt2 : ymdLt d anchor = false := by
              simp at hlt
              exact hlt
            have hle : ymdLe anchor d = true := by
              simp [ymdLe, hlt2]
            have hmd : decide (anchor.month = d.month ∧ anchor.day = d.day) =
                decide (d.month = anchor.month ∧ d.day = anchor.day) := by
              simp only [decide_eq_decide]
              constructor
              · rintro ⟨h1, h2⟩
                exact ⟨h1.symm, h2.symm⟩
              · rintro ⟨h1, h2⟩
                exact ⟨h1.symm, h2.symm⟩
            cases ru with
            | none =>
              simp [occursOnDate, occursOnSpecRef, isRecurringEvent, hexact,
                hda, hlt2, hle, untilCutoff, hmd]
            | some u =>
              by_cases hcut : ymdLt u d = true
              · have hdu : ymdLe d u = false := by
                  simp [ymdLe, hcut]
                simp [occursOnDate, occursOnSpecRef, isRecurringEvent, hexact,
                  hda, hlt2, hle, untilCutoff, hcut, hdu]
              · have hcut2 : ymdLt u d = false := by
                  simp at hcut
                  exact hcut
                have hdu : ymdLe d u = true := by
                  simp [ymdLe, hcut2]
                simp [occursOnDate, occursOnSpecRef, isRecurringEvent, hexact,
                  hda, hlt2, hle, untilCutoff, hcut2, hdu, hmd]
      · have hrec : isRecurringEvent ⟨i, ti, some anchor, tm, de, co, em, ow,
            fa, vi, rt, ri, ru⟩ = false := by
          simp [isRecurringEvent, hr]
        by_cases hexact : anchor = d
        · subst hexact
          simp [occursOnDate, occursOnSpecRef]
        · have hda : ¬ d = anchor := fun h => hexact h.symm
          simp [occursOnDate, occursOnSpecRef, hrec, hexact, hda, hr]
  refine ⟨main, ?_⟩
  intro e d hr hd
  cases hdate : e.date with
  | none => exact occursOnDate_none_date hdate d
  | some anchor =>
    have hda : anchor ≠ d := by
      intro h
      exact hd (by rw [hdate, h])
    have hrec : isRecurringEvent e = false := by
      simp [isRecurringEvent, hr]
    simp [occursOnDate, hdate, hda, hrec]

/-- Witness for C1 at a concrete one-off event: `recurrenceType` null and a
target a day after the anchor give `occursOnDate = false`. -/
theorem claim1_witness :
    occursOnDate ⟨"w1", "Once", some ⟨2024, 4, 10⟩, "", "", "blue", "", "U1",
      "F1", "shared", none, none, none⟩ ⟨2024, 4, 11⟩ = false :=
  claim1_occursOnDate_matches_spec.2
    ⟨"w1", "Once", some ⟨2024, 4, 10⟩, "", "", "blue", "", "U1", "F1",
      "shared", none, none, none⟩ ⟨2024, 4, 11⟩ (by decide) (by decide)

/-- Sample for C10: a yearly event anchored 2020-03-15 with
`recurrenceInterval = 2`. -/
def evBiennial : Event :=
  ⟨"c10", "Biennial", some ⟨2020, 3, 15⟩, "", "", "blue", "", "U1", "F1",
    "shared", some "yearly", some 2, none⟩

/-- C10: `occursOnDate` is insensitive to `recurrenceInterval` — replacing
the interval of any event by any value leaves `occursOnDate` unchanged on
every target date; concretely, the biennial sample event is reported on
2021-03-15 (a year whose month/day matches the anchor) even though
`getNextOccurrenceDate` queried from 2021-01-01 steps over 2021 directly to
2022-03-15. -/
theorem claim10_occursOn_interval_insensitive :
    (∀ e d i,
      occursOnDate { e with recurrenceInterval := i } d = occursOnDate e d) ∧
    (occursOnDate evBiennial ⟨2021, 3, 15⟩ = true ∧
      getNextOccurrenceDate evBiennial ⟨2021, 1, 1⟩ = some ⟨2022, 3, 15⟩) := by
  refine ⟨?_, by decide, by decide⟩
  intro e d i
  rcases e with ⟨i0, ti, date, tm, de, co, em, ow, fa, vi, rt, ri, ru⟩
  rfl

/-- C3: membership in the store's candidate set is exactly the role-free
visibility rule — an event is selected iff it is a `shared` event of the
viewer's family or a `private` event owned by the viewer; in particular a
private event of another user is never selected, whatever the viewer's role
(the query takes no role at all). -/
theorem claim3_visibility_predicate :
    (∀ table famId uid e,
      e ∈ getEventsByFamily table famId uid ↔
        (e ∈ table ∧ ((e.visibility = "shared" ∧ e.familyId = famId) ∨
          (e.visibility = "private" ∧ e.ownerId = uid)))) ∧
    (∀ table famId uid e, e.visibility = "private" → e.ownerId ≠ uid →
      e ∉ getEventsByFamily table famId uid) := by
  have main : ∀ table famId uid e,
      e ∈ getEventsByFamily table famId uid ↔
        (e ∈ table ∧ ((e.visibility = "shared" ∧ e.familyId = famId) ∨
          (e.visibility = "private" ∧ e.ownerId = uid))) := by
    intro table famId uid e
    simp only [getEventsByFamily, List.mem_filter, visibleToViewer,
      decide_eq_true_iff]
    tauto
  refine ⟨main, ?_⟩
  intro table famId uid e hpriv hown hmem
  rcases (main table famId uid e).1 hmem with ⟨-, h | h⟩
  · rw [hpriv] at h
    exact absurd h.1 (by decide)
  · exact hown h.2

/-- Witness for C3 at a concrete table: a private event of user U2 is not in
the candidate set computed for user U1, though both are in family F1. -/
theorem claim3_witness :
    ⟨"w3", "Dentist", some ⟨2024, 4, 10⟩, "", "", "blue", "", "U2", "F1",
        "private", none, none, none⟩ ∉
      getEventsByFamily
        [⟨"w3", "Dentist", some ⟨2024, 4, 10⟩, "", "", "blue", "", "U2",
          "F1", "private", none, none, none⟩] "F1" "U1" :=
  claim3_visibility_predicate.2
    [⟨"w3", "Dentist", some ⟨2024, 4, 10⟩, "", "", "blue", "", "U2", "F1",
      "private", none, none, none⟩] "F1" "U1"
    ⟨"w3", "Dentist", some ⟨2024, 4, 10⟩, "", "", "blue", "", "U2", "F1",
      "private", none, none, none⟩ rfl (by decide)

/-- Sample for C5: a yearly event anchored 2020-01-01 whose stored
`recurrenceInterval` is 0, queried from 2021-06-01 (anchor strictly before
the query date). -/
def evZeroInterval : Event :=
  ⟨"c5", "Zero", some ⟨2020, 1, 1⟩, "", "", "blue", "", "U1", "F1", "shared",
    some "yearly", some 0, none⟩

/-- Counterexample to C5 as stated: with a zero `recurrenceInterval` and the
anchor strictly before `fromDate`, `getNextOccurrenceDate` does NOT yield
null — the interval is coerced to the default 1 before the loop, which then
finds 2022-01-01. -/
theorem claim5_counterexample :
    getNextOccurrenceDate evZeroInterval ⟨2021, 6, 1⟩ = some ⟨2022, 1, 1⟩ ∧
      getNextOccurrenceDate evZeroInterval ⟨2021, 6, 1⟩ ≠ none := by
  constructor
  · decide
  · decide

/-- C5 (amended): a non-positive `recurrenceInterval` is coerced to the
default 1 by `getNextOccurrenceDate` (the guard
`event.recurrenceInterval && Number(event.recurrenceInterval) > 0` fails),
so the function terminates and returns exactly what it returns with
interval 1 — not unconditionally null. -/
theorem claim5_amended_nonpositive_interval :
    ∀ (e : Event) (fromDate : YMD) (i : Int), i ≤ 0 →
      getNextOccurrenceDate { e with recurrenceInterval := some i } fromDate =
        getNextOccurrenceDate { e with recurrenceInterval := some 1 } fromDate := by
  intro e fromDate i hi
  rcases e with ⟨i0, ti, date, tm, de, co, em, ow, fa, vi, rt, ri, ru⟩
  have h0 : ¬ (0 : Int) < i := by omega
  simp [getNextOccurrenceDate, isRecurringEvent, h0]

/-- Witness for C5 (amended) at interval −3: the result from 2021-06-01
coincides with the interval-1 result. -/
theorem claim5_witness :
    getNextOccurrenceDate
        ⟨"c5w", "Neg", some ⟨2020, 1, 1⟩, "", "", "blue", "", "U1", "F1",
          "shared", some "yearly", some (-3), none⟩ ⟨2021, 6, 1⟩ =
      getNextOccurrenceDate
        ⟨"c5w", "Neg", some ⟨2020, 1, 1⟩, "", "", "blue", "", "U1", "F1",
          "shared", some "yearly", some 1, none⟩ ⟨2021, 6, 1⟩ :=
  claim5_amended_nonpositive_interval
    ⟨"c5w", "Neg", some ⟨2020, 1, 1⟩, "", "", "blue", "", "U1", "F1",
      "shared", some "yearly", none, none⟩ ⟨2021, 6, 1⟩ (-3) (by decide)

theorem occursOnDate_of_anchor {e : Event} {d : YMD} (h : e.date = some d) :
    occursOnDate e d = true := by
  simp [occursOnDate, h]

/-- Sample for C2: a private event owned by user U2 in family F1, dated
2024-04-10 — invisible to the viewer with userId U1 / familyId F1 under the
store's visibility predicate. -/
def evPrivateU2 : Event :=
  ⟨"c2", "Dentist", some ⟨2024, 4, 10⟩, "", "", "blue", "", "U2", "F1",
    "private", none, none, none⟩

/-- Counterexample to C2 as stated: `getEventsForDay` performs no visibility
re-validation.  With the invisible private event of U2 present in the input
list, its occurrence instance IS in the output for the day — the output does
not come only from events visible to the viewer (U1, F1, any role). -/
theorem claim2_counterexample :
    visibleToViewer "F1" "U1" evPrivateU2 = false ∧
      createOccurrenceInstance evPrivateU2 ⟨2024, 4, 10⟩ ∈
        getEventsForDay [evPrivateU2] ⟨2024, 4, 10⟩ := by
  constructor
  · decide
  · rw [getEventsForDay, List.mem_mergeSort]
    decide

/-- C2 (amended): the day materializer does not re-validate visibility — its
output is characterized without any viewer: an occurrence instance is in the
output of `getEventsForDay` iff it is the instance of some input event that
occurs on the requested date, whether or not that event is visible to the
requesting viewer.  The store's pre-filter (`getEventsByFamily`) is
therefore the only visibility boundary. -/
theorem claim2_amended_no_revalidation :
    ∀ events date o,
      o ∈ getEventsForDay events date ↔
        ∃ e, e ∈ events ∧ occursOnDate e date = true ∧
          o = createOccurrenceInstance e date := by
  intro events date o
  rw [getEventsForDay, List.mem_mergeSort, dayMaterialize, List.mem_filterMap]
  constructor
  · rintro ⟨e, he, hsome⟩
    refine ⟨e, he, ?_⟩
    cases hdate : e.date with
    | none => rw [hdate] at hsome; exact absurd hsome (by simp)
    | some d0 =>
      rw [hdate] at hsome
      dsimp only at hsome
      by_cases hd : d0 = date
      · subst hd
        rw [if_pos rfl] at hsome
        exact ⟨occursOnDate_of_anchor hdate, (Option.some_inj.1 hsome).symm⟩
      · rw [if_neg hd] at hsome
        by_cases hocc : occursOnDate e date = true
        · rw [if_pos hocc] at hsome
          exact ⟨hocc, (Option.some_inj.1 hsome).symm⟩
        · rw [if_neg hocc] at hsome
          exact absurd hsome (by simp)
  · rintro ⟨e, he, hocc, rfl⟩
    refine ⟨e, he, ?_⟩
    cases hdate : e.date with
    | none => rw [occursOnDate_none_date hdate] at hocc; exact absurd hocc (by simp)
    | some d0 =>
      dsimp only
      by_cases hd : d0 = date
      · subst hd
        rw [if_pos rfl]
      · rw [if_neg hd, if_pos hocc]

@[simp] theorem upTitle_eq (u : EventUpdates) (e : Event) :
    upTitle u e = { e with title := u.title.getD e.title } := by
  cases hu : u.title <;> simp [upTitle, hu]

@[simp] theorem upDate_eq (u : EventUpdates) (e : Event) :
    upDate u e = { e with date := match u.date with
      | some v => some v
      | none => e.date } := by
  cases hu : u.date <;> simp [upDate, hu]

@[simp] theorem upTime_eq (u : EventUpdates) (e : Event) :
    upTime u e = { e with time := u.time.getD e.time } := by
  cases hu : u.time <;> simp [upTime, hu]

@[simp] theorem upDescription_eq (u : EventUpdates) (e : Event) :
    upDescription u e = { e with description := u.description.getD e.description } := by
  cases hu : u.description <;> simp [upDescription, hu]

@[simp] theorem upColor_eq (u : EventUpdates) (e : Event) :
    upColor u e = { e with color := u.color.getD e.color } := by
  cases hu : u.color <;> simp [upColor, hu]

@[simp] theorem upEmoji_eq (u : EventUpdates) (e : Event) :
    upEmoji u e = { e with emoji := u.emoji.getD e.emoji } := by
  cases hu : u.emoji <;> simp [upEmoji, hu]

@[simp] theorem upVisibility_eq (u : EventUpdates) (e : Event) :
    upVisibility u e = { e with visibility := u.visibility.getD e.visibility } := by
  cases hu : u.visibility <;> simp [upVisibility, hu]

@[simp] theorem upRecurrenceType_eq (u : EventUpdates) (e : Event) :
    upRecurrenceType u e = { e with
      recurrenceType := match u.recurrenceType with
        | some v => strOrNull v
        | none => e.recurrenceType
      recurrenceInterval := match u.recurrenceType with
        | some v =>
          (match strOrNull v with
           | none => none
           | some _ => e.recurrenceInterval)
        | none => e.recurrenceInterval
      recurrenceUntil := match u.recurrenceType with
        | some v =>
          (match strOrNull v with
           | none => none
           | some _ => e.recurrenceUntil)
        | none => e.recurrenceUntil } := by
  cases hu : u.recurrenceType with
  | none => simp [upRecurrenceType, hu]
  | some v =>
    cases hs : strOrNull v <;> simp [upRecurrenceType, hu, hs]

@[simp] theorem upRecurrenceInterval_eq (u : EventUpdates) (e : Event) :
    upRecurrenceInterval u e = { e with
      recurrenceInterval := match u.recurrenceInterval with
        | some v =>
          (match v with
           | some n => if n = 0 then none else some n
           | none => none)
        | none => e.recurrenceInterval } := by
  cases hu : u.recurrenceInterval <;> simp [upRecurrenceInterval, hu]

@[simp] theorem upRecurrenceUntil_eq (u : EventUpdates) (e : Event) :
    upRecurrenceUntil u e = { e with
      recurrenceUntil := u.recurrenceUntil.getD e.recurrenceUntil } := by
  cases hu : u.recurrenceUntil <;> simp [upRecurrenceUntil, hu]

theorem updateEvent_ownerId (e : Event) (u : EventUpdates) :
    (updateEvent e u).ownerId = e.ownerId := by
  simp [updateEvent]

theorem updateEvent_familyId (e : Event) (u : EventUpdates) :
    (updateEvent e u).familyId = e.familyId := by
  simp [updateEvent]

theorem updateEvent_visibility_of_none (e : Event) (u : EventUpdates)
    (h : u.visibility = none) : (updateEvent e u).visibility = e.visibility := by
  simp [updateEvent, h]

/-- Sample for C8: a create request with no `recurrenceType` but a
`recurrenceUntil` of 2030-01-01. -/
def evDataNoType : EventData :=
  ⟨"T", ⟨2024, 5, 1⟩, none, none, none, none, "U1", "F1", none, none, none,
    some ⟨2030, 1, 1⟩⟩

/-- Counterexample to C8 as stated: `createEvent` does not clear
`recurrence_until` when `recurrence_type` is null — a create request with no
`recurrenceType` but a `recurrenceUntil` stores a row whose type is null yet
whose until-bound is set, violating the claimed write invariant. -/
theorem claim8_counterexample :
    (createEvent "e1" evDataNoType).recurrenceType = none ∧
      (createEvent "e1" evDataNoType).recurrenceUntil = some ⟨2030, 1, 1⟩ := by
  exact ⟨rfl, rfl⟩

/-- C8 (amended): the normalization the source actually performs.  On
`createEvent`: a null (or empty) `recurrenceType` stores a null
`recurrence_interval` but `recurrence_until` is stored as given; with a type
set, a missing or zero interval is defaulted to 1.  On `updateEvent`: an
update that clears `recurrenceType` and itself carries no
`recurrenceInterval`/`recurrenceUntil` leaves all three recurrence columns
null; but an update that sets a `recurrenceType` without an interval keeps
the previously stored interval (no defaulting to 1 on update). -/
theorem claim8_amended_normalization :
    (∀ (id : String) (d : EventData), strOrNull d.recurrenceType = none →
      (createEvent id d).recurrenceType = none ∧
        (createEvent id d).recurrenceInterval = none ∧
        (createEvent id d).recurrenceUntil = d.recurrenceUntil) ∧
    (∀ (id : String) (d : EventData), strOrNull d.recurrenceType ≠ none →
      (d.recurrenceInterval = none ∨ d.recurrenceInterval = some 0) →
      (createEvent id d).recurrenceInterval = some 1) ∧
    (∀ (e : Event) (u : EventUpdates) (v : Option String),
      u.recurrenceType = some v → strOrNull v = none →
      u.recurrenceInterval = none → u.recurrenceUntil = none →
      (updateEvent e u).recurrenceType = none ∧
        (updateEvent e u).recurrenceInterval = none ∧
        (updateEvent e u).recurrenceUntil = none) ∧
    (∀ (e : Event) (u : EventUpdates) (t : String),
      u.recurrenceType = some (some t) → t ≠ "" → u.recurrenceInterval = none →
      (updateEvent e u).recurrenceInterval = e.recurrenceInterval) := by
  refine ⟨?_, ?_, ?_, ?_⟩
  · intro id d h
    simp [createEvent, h]
  · intro id d h hi
    rcases hs : strOrNull d.recurrenceType with _ | t
    · exact absurd hs h
    · rcases hi with hi | hi <;> simp [createEvent, hs, hi]
  · intro e u v hv hs hi hu
    simp [updateEvent, hv, hs, hi, hu]
  · intro e u t hv ht hi
    have hs : strOrNull (some t) = some t := by
      simp [strOrNull, ht]
    simp [updateEvent, hv, hs, hi]

/-- Witness for C8 (amended) at a concrete create request with no recurrence
fields at all: the stored interval is null. -/
theorem claim8_witness :
    (createEvent "w8"
        ⟨"W", ⟨2024, 5, 1⟩, none, none, none, none, "U1", "F1", none, none,
          none, none⟩).recurrenceInterval = none :=
  (claim8_amended_normalization.1 "w8"
    ⟨"W", ⟨2024, 5, 1⟩, none, none, none, none, "U1", "F1", none, none, none,
      none⟩ rfl).2.1

/-- C9: a mutation route succeeds exactly for the event's owner or an admin
actor (a 403 denial produces no updated event), and a child actor's update
has `visibility`, `ownerId`, `familyId` stripped before `updateEvent` — so a
child's update never changes those three fields (the latter two also because
`updateEvent` has no branch writing them). -/
theorem claim9_mutation_authorization :
    (∀ (ev : Event) (s : Session) (body : EventUpdates),
      (∃ r, putEventRoute (some ev) s body = .ok r) ↔
        (s.userId = ev.ownerId ∨ s.userRole = "admin")) ∧
    (∀ (ev : Event) (s : Session),
      deleteEventRoute (some ev) s = .ok ev ↔
        (s.userId = ev.ownerId ∨ s.userRole = "admin")) ∧
    (∀ (ev : Event) (s : Session) (body : EventUpdates),
      ¬ (s.userId = ev.ownerId ∨ s.userRole = "admin") →
      putEventRoute (some ev) s body = .forbidden ∧
        deleteEventRoute (some ev) s = .forbidden) ∧
    (∀ (ev : Event) (s : Session) (body : EventUpdates) (r : Event),
      s.userRole = "child" → putEventRoute (some ev) s body = .ok r →
      r.visibility = ev.visibility ∧ r.ownerId = ev.ownerId ∧
        r.familyId = ev.familyId) := by
  have guard_iff : ∀ (ev : Event) (s : Session),
      ¬ (ev.ownerId ≠ s.userId ∧ s.userRole ≠ "admin") ↔
        (s.userId = ev.ownerId ∨ s.userRole = "admin") := by
    intro ev s
    constructor
    · intro h
      rcases not_and_or.1 h with h1 | h2
      · exact Or.inl (not_not.1 h1).symm
      · exact Or.inr (not_not.1 h2)
    · rintro (h | h) ⟨h1, h2⟩
      · exact h1 h.symm
      · exact h2 h
  refine ⟨?_, ?_, ?_, ?_⟩
  · intro ev s body
    constructor
    · rintro ⟨r, hr⟩
      by_cases hg : ev.ownerId ≠ s.userId ∧ s.userRole ≠ "admin"
      · simp only [putEventRoute] at hr
        rw [if_pos hg] at hr
        exact absurd hr (by simp)
      · exact (guard_iff ev s).1 hg
    · intro h
      have hg : ¬ (ev.ownerId ≠ s.userId ∧ s.userRole ≠ "admin") :=
        (guard_iff ev s).2 h
      simp only [putEventRoute]
      rw [if_neg hg]
      exact ⟨_, rfl⟩
  · intro ev s
    constructor
    · intro h
      by_cases hg : ev.ownerId ≠ s.userId ∧ s.userRole ≠ "admin"
      · simp only [deleteEventRoute] at h
        rw [if_pos hg] at h
        exact absurd h (by simp)
      · exact (guard_iff ev s).1 hg
    · intro h
      have hg : ¬ (ev.ownerId ≠ s.userId ∧ s.userRole ≠ "admin") :=
        (guard_iff ev s).2 h
      simp only [deleteEventRoute]
      rw [if_neg hg]
  · intro ev s body hne
    have hg : ev.ownerId ≠ s.userId ∧ s.userRole ≠ "admin" := by
      by_contra hng
      exact hne ((guard_iff ev s).1 hng)
    constructor
    · simp only [putEventRoute]
      rw [if_pos hg]
    · simp only [deleteEventRoute]
      rw [if_pos hg]
  · intro ev s body r hchild hr
    by_cases hg : ev.ownerId ≠ s.userId ∧ s.userRole ≠ "admin"
    · simp only [putEventRoute] at hr
      rw [if_pos hg] at hr
      exact absurd hr (by simp)
    · simp only [putEventRoute] at hr
      rw [if_neg hg, if_pos hchild] at hr
      injection hr with h
      subst h
      refine ⟨?_, updateEvent_ownerId ev _, updateEvent_familyId ev _⟩
      exact updateEvent_visibility_of_none ev _ rfl

/-- Witness for C9 at concrete data: a child actor who owns the event gets
an `ok` result, and the update leaves `visibility` unchanged. -/
theorem claim9_witness :
    ∃ r, putEventRoute
        (some ⟨"w9", "Party", some ⟨2024, 6, 1⟩, "", "", "blue", "", "U1",
          "F1", "shared", none, none, none⟩)
        ⟨"U1", "child"⟩
        ⟨none, none, none, none, none, none, some "private", none, none, none,
          some "U9", some "F9"⟩ = .ok r :=
  (claim9_mutation_authorization.1
    ⟨"w9", "Party", some ⟨2024, 6, 1⟩, "", "", "blue", "", "U1", "F1",
      "shared", none, none, none⟩ ⟨"U1", "child"⟩
    ⟨none, none, none, none, none, none, some "private", none, none, none,
      some "U9", some "F9"⟩).2 (Or.inl rfl)

theorem ymdFoldMax_init_le (l : List YMD) :
    ∀ init, ymdLe init (ymdFoldMax l init) = true := by
  induction l with
  | nil => intro init; exact ymdLe_refl init
  | cons d l ih =>
    intro init
    have hstep : ymdLe init (if ymdLt init d = true then d else init) = true := by
      by_cases h : ymdLt init d = true
      · rw [if_pos h]
        exact ymdLe_of_lt h
      · rw [if_neg h]
        exact ymdLe_refl init
    have htail := ih (if ymdLt init d = true then d else init)
    exact ymdLe_trans hstep htail

theorem ymdFoldMax_le_of_mem (l : List YMD) :
    ∀ init x, x ∈ l → ymdLe x (ymdFoldMax l init) = true := by
  induction l with
  | nil => intro init x hx; exact absurd hx (by simp)
  | cons d l ih =>
    intro init x hx
    rcases List.mem_cons.1 hx with rfl | hx
    · have hstep : ymdLe x (if ymdLt init x = true then x else init) = true := by
        by_cases h : ymdLt init x = true
        · rw [if_pos h]
          exact ymdLe_refl x
        · rw [if_neg h]
          exact ymdLe_of_not_lt (by simpa using h)
      exact ymdLe_trans hstep (ymdFoldMax_init_le l _)
    · exact ih _ x hx

theorem ymdFoldMax_eq_init_or_mem (l : List YMD) :
    ∀ init, ymdFoldMax l init = init ∨ ymdFoldMax l init ∈ l := by
  induction l with
  | nil => intro init; exact Or.inl rfl
  | cons d l ih =>
    intro init
    rcases ih (if ymdLt init d = true then d else init) with h | h
    · by_cases hc : ymdLt init d = true
      · right
        rw [ymdFoldMax, List.foldl_cons]
        rw [ymdFoldMax] at h
        rw [h, if_pos hc]
        exact List.mem_cons_self d l
      · left
        rw [ymdFoldMax, List.foldl_cons]
        rw [ymdFoldMax] at h
        rw [h, if_neg hc]
    · right
      rw [ymdFoldMax, List.foldl_cons]
      exact List.mem_cons_of_mem d (by rw [ymdFoldMax] at h; exact h)

/-- C7: `calculateListHorizon` returns the later of the default horizon
(`startDate` plus 60 days) and the furthest per-event next occurrence: the
horizon is always on or after the 60-day default, every event's next
occurrence is on or before it, and whenever it is strictly past the default
it is itself some event's next occurrence. -/
theorem claim7_list_horizon :
    ∀ events startDate,
      (ymdLe (addDays startDate 60) (calculateListHorizon events startDate) = true) ∧
      (∀ e d, e ∈ events → getNextOccurrenceDate e startDate = some d →
        ymdLe d (calculateListHorizon events startDate) = true) ∧
      (calculateListHorizon events startDate = addDays startDate 60 ∨
        ∃ e, e ∈ events ∧
          getNextOccurrenceDate e startDate =
            some (calculateListHorizon events startDate)) := by
  intro events startDate
  have hif : ∀ occs : List YMD,
      (if occs.length > 0 then ymdFoldMax occs startDate else startDate) =
        ymdFoldMax occs startDate := by
    intro occs
    by_cases h : occs.length > 0
    · rw [if_pos h]
    · rw [if_neg h]
      have he : occs = [] := List.length_eq_zero.1 (by omega)
      rw [he]
      rfl
  have hcal : calculateListHorizon events startDate =
      if ymdLt
          (ymdFoldMax
            (events.filterMap (fun e => getNextOccurrenceDate e startDate))
            startDate)
          (addDays startDate 60) = true then
        addDays startDate 60
      else
        ymdFoldMax (events.filterMap (fun e => getNextOccurrenceDate e startDate))
          startDate := by
    rw [calculateListHorizon]
    rw [hif]
  rw [hcal]
  set occs := events.filterMap (fun e => getNextOccurrenceDate e startDate) with hoccs
  set fm := ymdFoldMax occs startDate with hfm
  refine ⟨?_, ?_, ?_⟩
  · by_cases h : ymdLt fm (addDays startDate 60) = true
    · rw [if_pos h]
      exact ymdLe_refl _
    · rw [if_neg h]
      exact ymdLe_of_not_lt (by simpa using h)
  · intro e d he hd
    have hmem : d ∈ occs := by
      rw [hoccs]
      exact List.mem_filterMap.2 ⟨e, he, hd⟩
    have h1 : ymdLe d fm = true := ymdFoldMax_le_of_mem occs startDate d hmem
    by_cases h : ymdLt fm (addDays startDate 60) = true
    · rw [if_pos h]
      exact ymdLe_trans h1 (ymdLe_of_lt h)
    · rw [if_neg h]
      exact h1
  · by_cases h : ymdLt fm (addDays startDate 60) = true
    · rw [if_pos h]
      exact Or.inl rfl
    · rw [if_neg h]
      rcases ymdFoldMax_eq_init_or_mem occs startDate with h1 | h1
    -- `fm` is either the initial `startDate` or one of the occurrences
      · exfalso
        rw [hfm, h1] at h
        exact h (ymdLt_addDays startDate (by omega))
      · right
        rw [hoccs] at h1
        rcases List.mem_filterMap.1 h1 with ⟨e, he, hd⟩
        exact ⟨e, he, hd⟩

/-- Witness for C7 at the specification's P8 scenario: one yearly event
anchored 2023-06-01, queried from 2024-01-01; its next occurrence 2024-06-01
is on or before the computed horizon. -/
theorem claim7_witness :
    ymdLe ⟨2024, 6, 1⟩
        (calculateListHorizon
          [⟨"w7", "Fete", some ⟨2023, 6, 1⟩, "", "", "blue", "", "U1", "F1",
            "shared", some "yearly", none, none⟩] ⟨2024, 1, 1⟩) = true :=
  (claim7_list_horizon
    [⟨"w7", "Fete", some ⟨2023, 6, 1⟩, "", "", "blue", "", "U1", "F1",
      "shared", some "yearly", none, none⟩] ⟨2024, 1, 1⟩).2.1
    ⟨"w7", "Fete", some ⟨2023, 6, 1⟩, "", "", "blue", "", "U1", "F1",
      "shared", some "yearly", none, none⟩ ⟨2024, 6, 1⟩ (by simp) (by decide)

theorem occLe_trans : ∀ a b c : Occurrence,
    occLe a b = true → occLe b c = true → occLe a c = true := by
  intro a b c
  simp only [occLe, decide_eq_true_iff]
  omega

theorem occLe_total : ∀ a b : Occurrence, (occLe a b || occLe b a) = true := by
  intro a b
  simp only [occLe, Bool.or_eq_true, decide_eq_true_iff]
  omega

/-- C6: the list returned by `getEventsForDay` is sorted by time-of-day
ascending; the sort is stable (for every key the subsequence of
occurrences with that key is exactly as materialized, in original order);
all-day occurrences (empty time) carry the maximum possible key
`Number.MAX_SAFE_INTEGER`; and consequently every occurrence with a smaller
key — in particular every well-formed timed occurrence — appears strictly
before every all-day occurrence. -/
theorem claim6_day_ordering :
    ∀ events date,
      ((getEventsForDay events date).Pairwise (fun a b => occKey a ≤ occKey b)) ∧
      (∀ k : Nat, (getEventsForDay events date).filter (fun o => occKey o == k) =
        (dayMaterialize events date).filter (fun o => occKey o == k)) ∧
      (∀ o, o ∈ getEventsForDay events date → o.event.time = "" →
        occKey o = MAX_SAFE_INTEGER) ∧
      (∀ i j : Fin (getEventsForDay events date).length,
        ((getEventsForDay events date).get i).event.time = "" →
        occKey ((getEventsForDay events date).get j) < MAX_SAFE_INTEGER →
        (j : Nat) < (i : Nat)) := by
  intro events date
  have hsorted : (getEventsForDay events date).Pairwise
      (fun a b => occLe a b = true) := by
    rw [getEventsForDay]
    exact List.sorted_mergeSort occLe_trans occLe_total (dayMaterialize events date)
  have hpair : (getEventsForDay events date).Pairwise
      (fun a b => occKey a ≤ occKey b) :=
    hsorted.imp (fun h => by simpa [occLe] using h)
  have hallday : ∀ o, o ∈ getEventsForDay events date → o.event.time = "" →
      occKey o = MAX_SAFE_INTEGER := by
    intro o ho ht
    rw [occKey, ht]
    rfl
  refine ⟨hpair, ?_, hallday, ?_⟩
  · intro k
    have hallk : ∀ a ∈ (dayMaterialize events date).filter
        (fun o => occKey o == k), occKey a = k := by
      intro a ha
      have h2 := (List.mem_filter.1 ha).2
      simpa using h2
    have hpw : ((dayMaterialize events date).filter
        (fun o => occKey o == k)).Pairwise (fun a b => occLe a b = true) := by
      refine List.pairwise_iff_forall_sublist.mpr ?_
      intro a b hs
      have ha := hallk a (hs.subset (by simp))
      have hb := hallk b (hs.subset (by simp))
      simp [occLe, ha, hb]
    have hsub : ((dayMaterialize events date).filter
        (fun o => occKey o == k)).Sublist (getEventsForDay events date) := by
      rw [getEventsForDay]
      exact List.mergeSort_stable occLe_trans occLe_total hpw
        (List.filter_sublist (dayMaterialize events date))
    have hsub2 : ((dayMaterialize events date).filter
        (fun o => occKey o == k)).Sublist
          ((getEventsForDay events date).filter (fun o => occKey o == k)) := by
      have h1 := List.Sublist.filter (fun o => occKey o == k) hsub
      rwa [List.filter_eq_self.2
        (fun a ha => (List.mem_filter.1 ha).2)] at h1
    have hperm : ((getEventsForDay events date).filter
        (fun o => occKey o == k)).Perm
          ((dayMaterialize events date).filter (fun o => occKey o == k)) := by
      rw [getEventsForDay]
      exact (List.mergeSort_perm (dayMaterialize events date) occLe).filter _
    exact (hsub2.eq_of_length hperm.length_eq.symm).symm
  · intro i j hi hj
    have hki : occKey ((getEventsForDay events date).get i) = MAX_SAFE_INTEGER :=
      hallday _ (List.get_mem _ i.1 i.2) hi
    by_contra hij
    push_neg at hij
    rcases Nat.lt_or_ge (i : Nat) (j : Nat) with hlt | hge
    · have hle := List.pairwise_iff_get.1 hpair i j hlt
      omega
    · have hij2 : (i : Nat) = (j : Nat) := by omega
      have : i = j := Fin.ext hij2
      subst this
      omega

/-- Witness for C6 at the specification's P6 scenario: among events timed
14:00, 09:00 and all-day on the same date, the all-day occurrence carries
the maximum key. -/
theorem claim6_witness :
    occKey (createOccurrenceInstance
        ⟨"wA", "AllDay", some ⟨2024, 4, 10⟩, "", "", "blue", "", "U1", "F1",
          "shared", none, none, none⟩ ⟨2024, 4, 10⟩) = MAX_SAFE_INTEGER :=
  (claim6_day_ordering
      [⟨"w14", "Late", some ⟨2024, 4, 10⟩, "14:00", "", "blue", "", "U1",
        "F1", "shared", none, none, none⟩,
       ⟨"w09", "Early", some ⟨2024, 4, 10⟩, "09:00", "", "blue", "", "U1",
        "F1", "shared", none, none, none⟩,
       ⟨"wA", "AllDay", some ⟨2024, 4, 10⟩, "", "", "blue", "", "U1", "F1",
        "shared", none, none, none⟩] ⟨2024, 4, 10⟩).2.2.1
    (createOccurrenceInstance
      ⟨"wA", "AllDay", some ⟨2024, 4, 10⟩, "", "", "blue", "", "U1", "F1",
        "shared", none, none, none⟩ ⟨2024, 4, 10⟩)
    (by rw [getEventsForDay, List.mem_mergeSort]; decide) rfl

theorem candidateAfter_succ_shift (interval : Int) (c : YMD) :
    ∀ k, candidateAfter interval c (k + 1) =
      candidateAfter interval (stepOnce interval c) k := by
  intro k
  induction k with
  | zero => rfl
  | succ n ih =>
    calc candidateAfter interval c (n + 1 + 1)
        = stepOnce interval (candidateAfter interval c (n + 1)) := rfl
      _ = stepOnce interval (candidateAfter interval (stepOnce interval c) n) := by
          rw [ih]
      _ = candidateAfter interval (stepOnce interval c) (n + 1) := rfl

theorem stepLoop_eq_find (interval : Int) (startDate : YMD) :
    ∀ (fuel : Nat) (c : YMD),
      stepLoop interval startDate fuel c =
        ((List.range fuel).find?
          (fun k => ymdLe startDate (candidateAfter interval c k))).map
          (candidateAfter interval c) := by
  intro fuel
  induction fuel with
  | zero => intro c; rfl
  | succ n ih =>
    intro c
    rw [List.range_succ_eq_map]
    by_cases h : ymdLt c startDate = true
    · have h0 : ymdLe startDate (candidateAfter interval c 0) = false := by
        show ymdLe startDate c = false
        rw [ymdLe, h]
        rfl
      rw [List.find?_cons_of_neg _ (by simp only [h0]; exact fun hh => absurd hh (by simp))]
      rw [List.find?_map, Option.map_map]
      have hcomp1 : ((fun k => ymdLe startDate (candidateAfter interval c k)) ∘
          Nat.succ) =
          fun k => ymdLe startDate (candidateAfter interval (stepOnce interval c) k) := by
        funext k
        simp only [Function.comp]
        rw [show Nat.succ k = k + 1 from rfl, candidateAfter_succ_shift]
      have hcomp2 : (candidateAfter interval c ∘ Nat.succ) =
          candidateAfter interval (stepOnce interval c) := by
        funext k
        simp only [Function.comp]
        rw [show Nat.succ k = k + 1 from rfl, candidateAfter_succ_shift]
      rw [hcomp1, hcomp2]
      simp only [stepLoop]
      rw [if_pos h]
      exact ih (stepOnce interval c)
    · have h0 : ymdLe startDate (candidateAfter interval c 0) = true := by
        show ymdLe startDate c = true
        have h2 : ymdLt c startDate = false := by
          simpa using h
        rw [ymdLe, h2]
        rfl
      rw [@List.find?_cons_of_pos _
        (fun k => ymdLe startDate (candidateAfter interval c k)) 0
        (List.map Nat.succ (List.range n)) h0]
      simp only [stepLoop]
      rw [if_neg h]
      rfl

/-- Sample for C4: a yearly event anchored 1000-01-01, queried from
1501-06-01 — the first stepping candidate on or after the query date is
1502-01-01, which needs 502 yearly steps, beyond the 500-iteration cap. -/
def evAncient : Event :=
  ⟨"c4", "Old", some ⟨1000, 1, 1⟩, "", "", "blue", "", "U1", "F1", "shared",
    some "yearly", none, none⟩

set_option maxRecDepth 100000 in
/-- Counterexample to C4 as stated: on the ancient sample event the claimed
result — the first candidate reached by stepping the anchor in 1-year
increments that is on or after 1501-06-01, namely 1502-01-01 (the value the
second conjunct computes by unbounded search, well inside a 600-step
window) — differs from what `getNextOccurrenceDate` returns, which is
`null` because the stepping loop's 500-iteration safety bound (absent from
the claim) fires first. -/
theorem claim4_counterexample :
    getNextOccurrenceDate evAncient ⟨1501, 6, 1⟩ = none ∧
      ((List.range 600).find?
          (fun k => ymdLe ⟨1501, 6, 1⟩ (candidateAfter 1 ⟨1000, 1, 1⟩ k))).map
        (candidateAfter 1 ⟨1000, 1, 1⟩) = some ⟨1502, 1, 1⟩ := by
  constructor
  · decide
  · decide

set_option maxRecDepth 8192 in
theorem nextTail_eq (iv : Int) (fromDate anchor : YMD) (ru : Option YMD) :
    (match stepLoop iv fromDate 500 anchor with
     | none => none
     | some candidate =>
       if untilCutoff ru candidate then none
       else if ymdLe fromDate candidate then some candidate
       else none) =
    (match (List.range 500).find?
        (fun k => ymdLe fromDate (candidateAfter iv anchor k)) with
     | none => none
     | some k =>
       let candidate := candidateAfter iv anchor k
       match ru with
       | some u => if ymdLt u candidate then none else some candidate
       | none => some candidate) := by
  rw [stepLoop_eq_find]
  cases hf : (List.range 500).find?
      (fun k => ymdLe fromDate (candidateAfter iv anchor k)) with
  | none => rfl
  | some k =>
    have hk : ymdLe fromDate (candidateAfter iv anchor k) = true :=
      @List.find?_some _ (fun k => ymdLe fromDate (candidateAfter iv anchor k))
        k (List.range 500) hf
    cases ru with
    | none =>
      simp only [Option.map_some', untilCutoff]
      rw [if_pos hk]
      rfl
    | some u =>
      by_cases hc : ymdLt u (candidateAfter iv anchor k) = true
      · simp only [Option.map_some', untilCutoff]
        rw [if_pos hc, if_pos hc]
      · simp only [Option.map_some', untilCutoff]
        rw [if_neg hc, if_neg hc, if_pos hk]

set_option maxRecDepth 8192 in
/-- C4 (amended): `getNextOccurrenceDate` equals the spec's algorithm with
the 500-iteration cap made explicit — the anchor itself when on or after
`fromDate`; `null` for a non-recurring event; otherwise the first candidate
reached by stepping the anchor in `recurrenceInterval`-year increments (a
missing or non-positive interval steps by the default 1) that is on or
after `fromDate`, except that `null` is returned when the candidate is not
reached within 500 steps, or when a set `recurrenceUntil` is exceeded by
it. -/
theorem claim4_amended_next_occurrence :
    ∀ (e : Event) (fromDate : YMD),
      getNextOccurrenceDate e fromDate = nextOccSpecCapped e fromDate := by
  intro e fromDate
  rcases e with ⟨i0, ti, date, tm, de, co, em, ow, fa, vi, rt, ri, ru⟩
  cases date with
  | none => rfl
  | some anchor =>
    by_cases h1 : ymdLe fromDate anchor = true
    · simp only [getNextOccurrenceDate, nextOccSpecCapped]
      rw [if_pos h1, if_pos h1]
    · by_cases hr : rt = some "yearly"
      · subst hr
        have hrec : ¬ ((!isRecurringEvent ⟨i0, ti, some anchor, tm, de, co,
            em, ow, fa, vi, some "yearly", ri, ru⟩) = true) := by
          simp [isRecurringEvent]
        have hrs : ¬ ((some "yearly" : Option String) ≠ some "yearly") :=
          fun hh => hh rfl
        cases ri with
        | none =>
          simp only [getNextOccurrenceDate, nextOccSpecCapped]
          rw [if_neg h1, if_neg h1, if_neg hrec, if_neg hrs]
          exact nextTail_eq 1 fromDate anchor ru
        | some n =>
          by_cases hn : (0 : Int) < n
          · simp only [getNextOccurrenceDate, nextOccSpecCapped]
            rw [if_neg h1, if_neg h1, if_neg hrec, if_neg hrs]
            dsimp only
            rw [if_pos hn]
            exact nextTail_eq n fromDate anchor ru
          · simp only [getNextOccurrenceDate, nextOccSpecCapped]
            rw [if_neg h1, if_neg h1, if_neg hrec, if_neg hrs]
            dsimp only
            rw [if_neg hn]
            exact nextTail_eq 1 fromDate anchor ru
      · have hrec : (!isRecurringEvent ⟨i0, ti, some anchor, tm, de, co, em,
            ow, fa, vi, rt, ri, ru⟩) = true := by
          simp [isRecurringEvent, hr]
        simp only [getNextOccurrenceDate, nextOccSpecCapped]
        rw [if_neg h1, if_neg h1, if_pos hrec, if_pos hr]

end FamilyCal
